import Mathlib

/-!
Verification of the goal-decomposition and dependency-driven execution engine
(`planning_engine.py`): the task/plan data model, the goal analyzer, the task
decomposer, the capability router, plan assembly, and the execution coordinator.

Modelling conventions:
* Python dicts with string keys become insertion-ordered association lists.
* `uuid.uuid4()` freshness is modelled by sequential `Nat` identifiers: the
  k-th task created by the decomposer receives id `k`, so `tasks[i].id = i`.
* Money amounts (`cost_per_call`, `cost_usd`, budgets) are rationals; the
  source's decimal literals `0.50`, `0.10`, `0.24` become `1/2`, `1/10`, `6/25`.
* Wall-clock time is an oracle: the environment reports, per capability call,
  a (start, finish) pair of integer seconds.
* Exceptions raised by a capability's `execute` become `Except String`;
  `goal.split()[0]` raising `IndexError` on a wordless goal becomes `Option`.
* Capability bodies perform network calls, so their behaviour is a parameter
  (`Env`): theorems quantify over every possible capability behaviour.
* Python string operations (`in`, `split()`, `lower()`) are implemented by
  structural recursion over the character list of a `String`.
-/

namespace PlanningEngine

/-- The `TaskStatus` enum from the source. -/
inductive TaskStatus where
  | pending
  | in_progress
  | completed
  | failed
deriving DecidableEq

/-- The `TaskType` enum from the source (including `VIDEO_UPLOAD`, which has no
entry in the engine's tool table). -/
inductive TaskType where
  | research
  | script_generation
  | tts_generation
  | thumbnail_generation
  | seo_optimization
  | video_upload
deriving DecidableEq

/-- Values stored in the `input_data` / `output_data` dictionaries. -/
inductive PyVal where
  | str (s : String)
  | int (n : Int)
  | strList (xs : List String)
  | none
deriving DecidableEq

/-- A Python dict with string keys, as an insertion-ordered association list. -/
abbrev DataMap := List (String × PyVal)

/-- Wrap a present value as `PyVal.str`, an absent one as Python `None`. -/
def optStr : Option String → PyVal
  | Option.some s => PyVal.str s
  | Option.none => PyVal.none

/-- The `Task` dataclass. `created_at`/`completed_at` datetimes are integer
seconds; `dependencies=None` is identified with the empty list, matching the
coordinator's `(task.dependencies or [])`. -/
structure Task where
  id : Nat
  project_id : Option String
  task_type : TaskType
  status : TaskStatus
  input_data : DataMap
  output_data : Option DataMap := Option.none
  tool_used : Option String := Option.none
  cost_usd : ℚ := 0
  execution_time_seconds : Nat := 0
  created_at : Option Nat := Option.none
  completed_at : Option Nat := Option.none
  dependencies : List Nat := []
  is_parallel : Bool := false
deriving DecidableEq

/-- The `ExecutionPlan` dataclass (`created_at` is set from the wall clock at
creation and is irrelevant to the engine logic, so it is omitted). -/
structure ExecutionPlan where
  project_id : Option String
  goal : String
  tasks : List Task
  estimated_cost : ℚ
  estimated_duration_minutes : Nat
  tool_mapping : List (Nat × String)
deriving DecidableEq

/-- The `project_context` dict handed to `create_execution_plan`; absent keys
are `Option.none` (the source reads them with `.get`). -/
structure Context where
  project_id : Option String := Option.none
  niche : Option String := Option.none
  budget : Option ℚ := Option.none
  timeline : Option Nat := Option.none
  restrictions : Option (List String) := Option.none
deriving DecidableEq

/-- The `constraints` sub-dict of a goal analysis. -/
structure Constraints where
  budget_usd : ℚ
  timeline_days : Nat
  content_restrictions : List String
deriving DecidableEq

/-- The analysis dict produced by `analyze_goal`; `project_id` and `niche` are
added afterwards by `create_execution_plan`. -/
structure Analysis where
  objective_type : String
  scope : Nat
  complexity_level : String
  success_metrics : List (String × ℚ)
  constraints : Constraints
  project_id : Option String := Option.none
  niche : Option String := Option.none
deriving DecidableEq

/-- Substring search over character lists: does `needle` occur contiguously in
the second argument?  (Python's `in` operator on strings.) -/
def containsSeq (needle : List Char) : List Char → Bool
  | [] => needle.isEmpty
  | c :: rest => needle.isPrefixOf (c :: rest) || containsSeq needle rest

/-- Python's `needle in haystack` substring test on strings. -/
def pyIn (needle haystack : String) : Bool :=
  containsSeq needle.data haystack.data

/-- Python's `str.lower()` (the goals and keywords involved are ASCII). -/
def pyLower (s : String) : String :=
  ⟨s.data.map Char.toLower⟩

/-- Helper for `pyWords`: accumulate the current (reversed) word while
scanning; whitespace ends a word, empty pieces are dropped. -/
def pyWordsCore (cur : List Char) : List Char → List (List Char)
  | [] => if cur.isEmpty then [] else [cur.reverse]
  | c :: rest =>
    if c.isWhitespace then
      if cur.isEmpty then pyWordsCore [] rest
      else cur.reverse :: pyWordsCore [] rest
    else pyWordsCore (c :: cur) rest

/-- Python's no-argument `str.split()`: split on whitespace runs, dropping
empty pieces. -/
def pyWords (s : String) : List String :=
  (pyWordsCore [] s.data).map (fun cs => String.mk cs)

/-- Source `PlanningEngine._classify_objective` (leading underscore dropped). -/
def classify_objective (goal : String) : String :=
  if (["earn", "money", "revenue"] : List String).any (fun w => pyIn w (pyLower goal)) then
    "monetization"
  else if (["brand", "growth"] : List String).any (fun w => pyIn w (pyLower goal)) then
    "branding"
  else if (["teach", "learn", "education"] : List String).any (fun w => pyIn w (pyLower goal)) then
    "education"
  else
    "entertainment"

/-- Source `PlanningEngine._determine_scope` (leading underscore dropped). -/
def determine_scope (goal : String) : Nat :=
  if (["series", "multiple", "batch"] : List String).any (fun w => pyIn w (pyLower goal)) then
    10
  else
    4

/-- Source `PlanningEngine.analyze_goal`. -/
def analyze_goal (goal : String) (ctx : Context) : Analysis :=
  { objective_type := classify_objective goal
    scope := determine_scope goal
    complexity_level := "medium"
    success_metrics :=
      [("views_target", 10000), ("engagement_rate_target", 4), ("watch_time_target", 60)]
    constraints :=
      { budget_usd := ctx.budget.getD 50
        timeline_days := ctx.timeline.getD 7
        content_restrictions := ctx.restrictions.getD [] } }

/-- The body of `PlanningEngine.decompose_tasks` after the seed keyword
`goal.split()[0]` has been extracted successfully.  Task ids are assigned
sequentially in creation order (modelling `uuid.uuid4()` freshness), so the
source's `tasks[i].id` dependency wiring is read off the accumulated list,
exactly as in the Python code.  `getD` stands for Python list indexing; every
index used below is in range, so the default (the discovery task) is never
consulted. -/
def decomposeList (goal kw : String) (analysis : Analysis) : List Task :=
  -- Task 1: Research (independent)
  let task1 : Task :=
    { id := 0
      project_id := analysis.project_id
      task_type := TaskType.research
      status := TaskStatus.pending
      input_data := [("niche", optStr analysis.niche), ("keyword", PyVal.str kw)]
      dependencies := []
      is_parallel := false }
  let tasks1 := [task1]
  -- Tasks 2-5: script generation, `for i in range(4)`
  let tasks2 := tasks1 ++ (List.range 4).map (fun i =>
    { id := 1 + i
      project_id := analysis.project_id
      task_type := TaskType.script_generation
      status := TaskStatus.pending
      input_data :=
        [("title", PyVal.str ("Video " ++ toString (i + 1) ++ ": " ++ goal)),
         ("keywords", PyVal.strList []),
         ("tone", PyVal.str "professional"),
         ("duration_minutes", PyVal.int 5)]
      dependencies := [task1.id]
      is_parallel := true })
  -- Tasks 6-9: TTS generation, `for i in range(1, 5)`, depending on `tasks[i]`
  let tasks3 := tasks2 ++ (List.range' 1 4).map (fun i =>
    { id := 4 + i
      project_id := analysis.project_id
      task_type := TaskType.tts_generation
      status := TaskStatus.pending
      input_data := [("script", PyVal.str "placeholder"), ("voice", PyVal.str "natural")]
      dependencies := [(tasks2.getD i task1).id]
      is_parallel := true })
  -- Tasks 10-13: thumbnail generation, `for i in range(4)`, depending on `tasks[1+i]`
  let tasks4 := tasks3 ++ (List.range 4).map (fun i =>
    { id := 9 + i
      project_id := analysis.project_id
      task_type := TaskType.thumbnail_generation
      status := TaskStatus.pending
      input_data :=
        [("title", PyVal.str ("Video " ++ toString (i + 1) ++ ": " ++ goal)),
         ("niche", optStr analysis.niche)]
      dependencies := [(tasks3.getD (1 + i) task1).id]
      is_parallel := true })
  -- Tasks 14-17: SEO optimization, `for i in range(4)`, depending on `tasks[1+i]`
  let tasks5 := tasks4 ++ (List.range 4).map (fun i =>
    { id := 13 + i
      project_id := analysis.project_id
      task_type := TaskType.seo_optimization
      status := TaskStatus.pending
      input_data :=
        [("title", PyVal.str ("Video " ++ toString (i + 1) ++ ": " ++ goal)),
         ("primary_keyword", PyVal.str goal),
         ("secondary_keywords", PyVal.strList [])]
      dependencies := [(tasks4.getD (1 + i) task1).id]
      is_parallel := true })
  tasks5

/-- Source `PlanningEngine.decompose_tasks`.  `goal.split()[0]` raises `IndexError`
when the goal has no words; that failure is the `Option.none` case. -/
def decompose_tasks (goal : String) (analysis : Analysis) : Option (List Task) :=
  match pyWords goal with
  | [] => Option.none
  | kw :: _ => Option.some (decomposeList goal kw analysis)

/-- Construction-time data of a tool: its `name` and fixed `cost_per_call`. -/
structure ToolSpec where
  name : String
  cost_per_call : ℚ
deriving DecidableEq

/-- The engine's `self.tools` table built in `PlanningEngine.__init__`;
`video_upload` has no entry, so looking it up raises `KeyError`. -/
def tools : TaskType → Option ToolSpec
  | TaskType.research => Option.some ⟨"research_tool", 0⟩
  | TaskType.script_generation => Option.some ⟨"script_generation_tool", 1/2⟩
  | TaskType.tts_generation => Option.some ⟨"tts_tool", 1/10⟩
  | TaskType.thumbnail_generation => Option.some ⟨"thumbnail_tool", 6/25⟩
  | TaskType.seo_optimization => Option.some ⟨"seo_tool", 1/10⟩
  | TaskType.video_upload => Option.none

/-- Source `PlanningEngine.route_tools`: each task contributes `tool_mapping[task.id] = self.tools[task.task_type].name`
for each task in order.  The lookup raises for a task type outside the table,
hence `Option`. -/
def route_tools : List Task → Option (List (Nat × String))
  | [] => Option.some []
  | t :: ts => do
    let tool ← tools t.task_type
    let rest ← route_tools ts
    Option.some ((t.id, tool.name) :: rest)

/-- The `total_cost` sum in `create_execution_plan`:
`cost_per_call * (3 if THUMBNAIL_GENERATION else 1)` summed over all tasks. -/
def plan_cost : List Task → Option ℚ
  | [] => Option.some 0
  | t :: ts => do
    let tool ← tools t.task_type
    let rest ← plan_cost ts
    Option.some
      (tool.cost_per_call * (if t.task_type = TaskType.thumbnail_generation then 3 else 1) + rest)

/-- Source `PlanningEngine.create_execution_plan`: analyze, enrich the analysis with
`project_id`/`niche`, decompose, route, and aggregate cost and duration
(`int(len(tasks) * 5 / 3)`, which is truncating division for these values). -/
def create_execution_plan (goal : String) (ctx : Context) : Option ExecutionPlan := do
  let analysis := analyze_goal goal ctx
  let analysis := { analysis with project_id := ctx.project_id, niche := ctx.niche }
  let tasks ← decompose_tasks goal analysis
  let tool_mapping ← route_tools tasks
  let total_cost ← plan_cost tasks
  let estimated_duration := tasks.length * 5 / 3
  Option.some
    { project_id := ctx.project_id
      goal := goal
      tasks := tasks
      estimated_cost := total_cost
      estimated_duration_minutes := estimated_duration
      tool_mapping := tool_mapping }

/-- The environment a run executes in: for each capability invocation
(`tool.execute(task.input_data)` inside `execute_task`), the outcome — either
a result dict plus incurred cost, or a raised exception's message — and the
wall-clock (start, finish) instants around the call.  The concrete tool
bodies perform network calls, so their behaviour is a parameter; theorems
quantify over every `Env`. -/
structure Env where
  run : TaskType → DataMap → Except String (DataMap × ℚ)
  time : TaskType → DataMap → Nat × Nat

/-- The message of the `KeyError` raised by `self.tools[task.task_type]` when
the task type has no tool (only `video_upload`): `str(KeyError(k))` is the
`repr` of the key. -/
def keyErrStr : TaskType → String
  | TaskType.research => "<TaskType.RESEARCH: 'research'>"
  | TaskType.script_generation => "<TaskType.SCRIPT_GENERATION: 'script_generation'>"
  | TaskType.tts_generation => "<TaskType.TTS_GENERATION: 'tts_generation'>"
  | TaskType.thumbnail_generation => "<TaskType.THUMBNAIL_GENERATION: 'thumbnail_generation'>"
  | TaskType.seo_optimization => "<TaskType.SEO_OPTIMIZATION: 'seo_optimization'>"
  | TaskType.video_upload => "<TaskType.VIDEO_UPLOAD: 'video_upload'>"

/-- Source `PlanningEngine.execute_task`.  The source sets `status = IN_PROGRESS`,
calls the tool inside `try`, and on success records output/tool name/cost and
`COMPLETED`; any exception (including the `KeyError` of a missing tool entry)
is caught and recorded as `FAILED` with `{'error': str(e)}`, leaving
`tool_used` and `cost_usd` at their previous values.  The `finally` block
records `completed_at` and the wall-clock duration in every case.  The
function is total: no exception escapes to the caller. -/
def execute_task (env : Env) (task : Task) : Task :=
  let clock := env.time task.task_type task.input_data
  let base :=
    match tools task.task_type with
    | Option.none =>
      { task with
        status := TaskStatus.failed
        output_data := Option.some [("error", PyVal.str (keyErrStr task.task_type))] }
    | Option.some tool =>
      match env.run task.task_type task.input_data with
      | Except.ok (out, cost) =>
        { task with
          output_data := Option.some out
          tool_used := Option.some tool.name
          cost_usd := cost
          status := TaskStatus.completed }
      | Except.error msg =>
        { task with
          status := TaskStatus.failed
          output_data := Option.some [("error", PyVal.str msg)] }
  { base with
    completed_at := Option.some clock.2
    execution_time_seconds := clock.2 - clock.1 }

/-- The coordinator's `completed_tasks` dict: task id → terminal task. -/
abbrev Dict := List (Nat × Task)

/-- Python's `dep_id in completed_tasks`. -/
def dmem (k : Nat) (m : Dict) : Bool :=
  m.any (fun p => p.1 == k)

/-- Python's `completed_tasks[k] = v`: overwrite an existing key, else append. -/
def dinsert (m : Dict) (k : Nat) (v : Task) : Dict :=
  if dmem k m then m.map (fun p => if p.1 == k then (k, v) else p) else m ++ [(k, v)]

/-- Python's `for task in results: completed_tasks[task.id] = task`. -/
def dinsertAll (m : Dict) (ts : List Task) : Dict :=
  ts.foldl (fun acc t => dinsert acc t.id t) m

/-- The ready-set condition: `task.status == PENDING and all(dep_id in
completed_tasks for dep_id in task.dependencies)`. -/
def isReady (m : Dict) (t : Task) : Bool :=
  t.status == TaskStatus.pending && t.dependencies.all (fun d => dmem d m)

/-- Number of tasks still `pending` (the loop's termination measure). -/
def pendingCount (ts : List Task) : Nat :=
  ts.countP (fun t => t.status == TaskStatus.pending)

/-- One iteration's effect on the plan's task list: every ready task is
executed and mutated in place (all other tasks are untouched).  Whether the
batch runs under `asyncio.gather` or sequentially, each task's final record
is `execute_task env t`, so both branches of the source's `is_parallel` test
produce this list. -/
def stepTasks (env : Env) (m : Dict) (ts : List Task) : List Task :=
  ts.map (fun t => if isReady m t then execute_task env t else t)

/-- How a run of `execute_plan` halted: every task reached the completed map,
or the stalled-graph `break` fired (`"No ready tasks found, possible circular
dependency"`). -/
inductive HaltReason where
  | allDone
  | stalled
deriving DecidableEq

/-- Final state of a run: the plan's (mutated) task list, the
`completed_tasks` map (the source's return value is its value list), a log of
every dispatch — the task as selected, with the completed map at selection
time — and how the loop halted. -/
structure ExecResult where
  tasks : List Task
  completed : Dict
  log : List (Task × Dict)
  reason : HaltReason
deriving DecidableEq

/-- The `while len(completed_tasks) < len(plan.tasks)` loop of
`PlanningEngine.execute_plan`, with explicit fuel; `Option.none` (fuel
exhausted) is proved unreachable for the fuel used by `execute_plan`. -/
def execPlanLoop (env : Env) : Nat → List Task → Dict → List (Task × Dict) → Option ExecResult
  | 0, _, _, _ => Option.none
  | fuel + 1, ts, m, log =>
    if m.length < ts.length then
      let ready := ts.filter (isReady m)
      if ready.isEmpty then Option.some ⟨ts, m, log, HaltReason.stalled⟩
      else
        execPlanLoop env fuel (stepTasks env m ts)
          (dinsertAll m (ready.map (execute_task env)))
          (log ++ ready.map (fun t => (t, m)))
    else Option.some ⟨ts, m, log, HaltReason.allDone⟩

/-- Source `PlanningEngine.execute_plan`.  Each iteration strictly decreases the
number of pending tasks, so `pendingCount + 1` fuel always suffices. -/
def execute_plan (env : Env) (plan : ExecutionPlan) : Option ExecResult :=
  execPlanLoop env (pendingCount plan.tasks + 1) plan.tasks [] []

/-- The value returned by the source's `execute_plan`:
`list(completed_tasks.values())`. -/
def returnedTasks (r : ExecResult) : List Task :=
  r.completed.map (fun p => p.2)

/-- A terminal status: `completed` or `failed`. -/
def terminalB (t : Task) : Bool :=
  t.status == TaskStatus.completed || t.status == TaskStatus.failed

/-- Number of terminal tasks in a list. -/
def terminalCount (ts : List Task) : Nat :=
  ts.countP terminalB

/-- Dependency closure of a task sequence, as a decidable check: every
dependency id is the id of some task of the sequence and differs from the
depending task's own id. -/
def depClosure (ts : List Task) : Bool :=
  ts.all fun t => t.dependencies.all fun d =>
    (ts.any fun u => u.id == d) && (d != t.id)

/-! ### Concrete fixtures used to instantiate the general theorems -/

/-- A minimal pending task with the given id and dependencies. -/
def simpleTask (idv : Nat) (deps : List Nat) : Task :=
  { id := idv
    project_id := Option.none
    task_type := TaskType.research
    status := TaskStatus.pending
    input_data := []
    dependencies := deps }

/-- An environment whose capabilities always succeed with a canned payload. -/
def envAllOk : Env :=
  { run := fun _ _ => Except.ok ([("x", PyVal.int 1)], 0)
    time := fun _ _ => (3, 10) }

/-- An environment whose capabilities always raise `"boom"`. -/
def envAllFail : Env :=
  { run := fun _ _ => Except.error "boom"
    time := fun _ _ => (0, 2) }

/-- Wrap a task list into a plan (the coordinator only reads `tasks`). -/
def planOf (ts : List Task) : ExecutionPlan :=
  { project_id := Option.none
    goal := "g"
    tasks := ts
    estimated_cost := 0
    estimated_duration_minutes := 0
    tool_mapping := [] }

/-- An already-completed task. -/
def doneTask : Task :=
  { simpleTask 0 [] with status := TaskStatus.completed }

/-- Extract the result of a run that is known to return. -/
def resultOrDefault (o : Option ExecResult) : ExecResult :=
  o.getD ⟨[], [], [], HaltReason.allDone⟩

/-- The run of a two-task chain whose every capability call fails. -/
def rFailPair : ExecResult :=
  resultOrDefault (execute_plan envAllFail (planOf [simpleTask 0 [], simpleTask 1 [0]]))

/-- The final state of the chain's first task in that run. -/
def a1Fail : Task :=
  rFailPair.tasks[0]?.getD (simpleTask 0 [])

/-- The run of a single-task plan under the all-ok environment. -/
def rOkSingle : ExecResult :=
  resultOrDefault (execute_plan envAllOk (planOf [simpleTask 0 []]))

/-- The run of a plan whose only task is already terminal. -/
def rDone : ExecResult :=
  resultOrDefault (execute_plan envAllOk (planOf [doneTask]))

/-- Demo goal with the default scope. -/
def goalDefault : String := "Grow my tech channel"

/-- Demo goal containing the keyword `series` (scope 10). -/
def goalSeries : String := "Launch a video series about AI"

/-- Demo request context. -/
def ctxDemo : Context :=
  { project_id := Option.some "p1", niche := Option.some "tech" }

/-- Demo analysis for `goalDefault`. -/
def analysisDemo : Analysis := analyze_goal goalDefault ctxDemo

/-- The decomposition of the demo goal. -/
def demoTasks : List Task :=
  (decompose_tasks goalDefault analysisDemo).getD []

/-- The tool mapping every decomposition produces (ids 0-16, canonical
order). -/
def routeTable : List (Nat × String) :=
  [(0, "research_tool"),
   (1, "script_generation_tool"), (2, "script_generation_tool"),
   (3, "script_generation_tool"), (4, "script_generation_tool"),
   (5, "tts_tool"), (6, "tts_tool"), (7, "tts_tool"), (8, "tts_tool"),
   (9, "thumbnail_tool"), (10, "thumbnail_tool"), (11, "thumbnail_tool"),
   (12, "thumbnail_tool"),
   (13, "seo_tool"), (14, "seo_tool"), (15, "seo_tool"), (16, "seo_tool")]

/-! ### Facts about single-task execution -/

theorem execute_task_id (env : Env) (t : Task) : (execute_task env t).id = t.id := by
  unfold execute_task
  rcases tools t.task_type with _ | tool
  · simp
  · rcases env.run t.task_type t.input_data with msg | ⟨out, cost⟩ <;> simp

theorem execute_task_deps (env : Env) (t : Task) :
    (execute_task env t).dependencies = t.dependencies := by
  unfold execute_task
  rcases tools t.task_type with _ | tool
  · simp
  · rcases env.run t.task_type t.input_data with msg | ⟨out, cost⟩ <;> simp

theorem execute_task_terminal (env : Env) (t : Task) :
    terminalB (execute_task env t) = true := by
  unfold execute_task terminalB
  rcases tools t.task_type with _ | tool
  · simp
  · rcases env.run t.task_type t.input_data with msg | ⟨out, cost⟩ <;> simp

theorem terminalB_not_pending {t : Task} (h : terminalB t = true) :
    t.status ≠ TaskStatus.pending := by
  unfold terminalB at h
  rcases Bool.or_eq_true_iff.mp h with h' | h' <;>
    simp only [beq_iff_eq] at h' <;> simp [h']

theorem execute_task_not_pending (env : Env) (t : Task) :
    (execute_task env t).status ≠ TaskStatus.pending :=
  terminalB_not_pending (execute_task_terminal env t)

/-! ### Facts about the completed-tasks dictionary -/

theorem dmem_dinsert_self (m : Dict) (k : Nat) (v : Task) :
    dmem k (dinsert m k v) = true := by
  unfold dinsert
  by_cases h : dmem k m = true
  · simp only [h, if_true]
    unfold dmem at h ⊢
    rcases List.any_eq_true.mp h with ⟨p, hp, hk⟩
    exact List.any_eq_true.mpr ⟨_, List.mem_map_of_mem _ hp, by simp [hk]⟩
  · simp only [h]
    unfold dmem
    exact List.any_eq_true.mpr
      ⟨(k, v), List.mem_append_right _ (List.mem_singleton_self _), by simp⟩

theorem dmem_dinsert_of {m : Dict} {k : Nat} (k' : Nat) (v : Task) (h : dmem k m = true) :
    dmem k (dinsert m k' v) = true := by
  unfold dinsert
  rcases List.any_eq_true.mp h with ⟨p, hp, hk⟩
  by_cases h' : dmem k' m = true
  · simp only [h', if_true]
    refine List.any_eq_true.mpr ⟨if p.1 == k' then (k', v) else p, List.mem_map_of_mem _ hp, ?_⟩
    by_cases hpk : (p.1 == k') = true
    · simp only [hpk, if_true]
      simp only [beq_iff_eq] at hpk hk ⊢
      omega
    · simp only [hpk]
      exact hk
  · simp only [h']
    exact List.any_eq_true.mpr ⟨p, List.mem_append_left _ hp, hk⟩

theorem mem_dinsert {m : Dict} {k : Nat} {v : Task} {p : Nat × Task}
    (h : p ∈ dinsert m k v) : p ∈ m ∨ p = (k, v) := by
  unfold dinsert at h
  by_cases h' : dmem k m = true
  · simp only [h', if_true] at h
    rcases List.mem_map.mp h with ⟨q, hq, rfl⟩
    by_cases hqk : (q.1 == k) = true
    · simp [hqk]
    · simp only [hqk, if_neg]
      left
      simpa [hqk] using hq
  · simp only [h'] at h
    rcases List.mem_append.mp h with h | h
    · exact Or.inl h
    · simp at h
      exact Or.inr (by simp [h])

theorem length_dinsert_le (m : Dict) (k : Nat) (v : Task) :
    (dinsert m k v).length ≤ m.length + 1 := by
  unfold dinsert
  by_cases h : dmem k m = true <;> simp [h]

theorem dmem_dinsertAll_of {m : Dict} {k : Nat} (ts : List Task) (h : dmem k m = true) :
    dmem k (dinsertAll m ts) = true := by
  induction ts generalizing m with
  | nil => exact h
  | cons t ts ih => exact ih (dmem_dinsert_of t.id t h)

theorem dmem_dinsertAll_mem {m : Dict} {t : Task} {ts : List Task} (h : t ∈ ts) :
    dmem t.id (dinsertAll m ts) = true := by
  induction ts generalizing m with
  | nil => cases h
  | cons u ts ih =>
    rcases List.mem_cons.mp h with rfl | h
    · exact dmem_dinsertAll_of ts (dmem_dinsert_self m t.id t)
    · exact ih h

theorem mem_dinsertAll {m : Dict} {ts : List Task} {p : Nat × Task}
    (h : p ∈ dinsertAll m ts) : p ∈ m ∨ ∃ t ∈ ts, p = (t.id, t) := by
  induction ts generalizing m with
  | nil => exact Or.inl h
  | cons t ts ih =>
    rcases ih h with h' | ⟨u, hu, rfl⟩
    · rcases mem_dinsert h' with h'' | rfl
      · exact Or.inl h''
      · exact Or.inr ⟨t, List.mem_cons_self t ts, rfl⟩
    · exact Or.inr ⟨u, List.mem_cons_of_mem _ hu, rfl⟩

theorem length_dinsertAll_le (m : Dict) (ts : List Task) :
    (dinsertAll m ts).length ≤ m.length + ts.length := by
  induction ts generalizing m with
  | nil => simp [dinsertAll]
  | cons t ts ih =>
    calc (dinsertAll (dinsert m t.id t) ts).length
        ≤ (dinsert m t.id t).length + ts.length := ih _
      _ ≤ m.length + 1 + ts.length := by
          have := length_dinsert_le m t.id t
          omega
      _ = m.length + (t :: ts).length := by simp; omega

/-! ### Facts about readiness and one loop iteration -/

theorem isReady_pending {m : Dict} {t : Task} (h : isReady m t = true) :
    t.status = TaskStatus.pending ∧ ∀ d ∈ t.dependencies, dmem d m = true := by
  unfold isReady at h
  rcases Bool.and_eq_true_iff.mp h with ⟨h1, h2⟩
  exact ⟨beq_iff_eq.mp h1, List.all_eq_true.mp h2⟩

theorem isReady_not_pending {m : Dict} {t : Task} (h : t.status ≠ TaskStatus.pending) :
    isReady m t = false := by
  unfold isReady
  have : (t.status == TaskStatus.pending) = false := beq_eq_false_iff_ne.mpr h
  simp [this]

theorem stepTasks_getElem? (env : Env) (m : Dict) (ts : List Task) (i : Nat) :
    (stepTasks env m ts)[i]? =
      ts[i]?.map (fun t => if isReady m t then execute_task env t else t) :=
  List.getElem?_map _ ts i

theorem stepTasks_length (env : Env) (m : Dict) (ts : List Task) :
    (stepTasks env m ts).length = ts.length :=
  List.length_map ts _

theorem ite_cond_true {α : Sort _} {inst : Decidable (true = true)} (a b : α) :
    @ite α (true = true) inst a b = a :=
  if_pos rfl

theorem ite_cond_false {α : Sort _} {inst : Decidable (false = true)} (a b : α) :
    @ite α (false = true) inst a b = b :=
  if_neg Bool.false_ne_true

theorem terminalCount_step (env : Env) (m : Dict) (ts : List Task) :
    terminalCount (stepTasks env m ts) = terminalCount ts + ts.countP (isReady m) := by
  induction ts with
  | nil => rfl
  | cons t ts ih =>
    unfold terminalCount stepTasks at ih ⊢
    by_cases h : isReady m t = true
    · have hpend : terminalB t = false := by
        rcases isReady_pending h with ⟨hp, _⟩
        unfold terminalB
        simp [hp]
      simp only [List.map_cons, List.countP_cons, h, hpend,
        execute_task_terminal env t, ite_cond_true, ite_cond_false, if_true, if_false, ih]
      omega
    · have h' : isReady m t = false := Bool.not_eq_true _ |>.mp h
      simp only [List.map_cons, List.countP_cons, h', ite_cond_false, if_true, if_false, ih]
      omega

theorem pendingCount_step_le (env : Env) (m : Dict) (ts : List Task) :
    pendingCount (stepTasks env m ts) ≤ pendingCount ts := by
  induction ts with
  | nil => exact Nat.le_refl _
  | cons t ts ih =>
    unfold pendingCount stepTasks at ih ⊢
    by_cases h : isReady m t = true
    · have hnp : ((execute_task env t).status == TaskStatus.pending) = false :=
        beq_eq_false_iff_ne.mpr (execute_task_not_pending env t)
      simp only [List.map_cons, List.countP_cons, h, hnp, ite_cond_true, ite_cond_false, if_true, if_false]
      omega
    · have h' : isReady m t = false := Bool.not_eq_true _ |>.mp h
      simp only [List.map_cons, List.countP_cons, h', ite_cond_false, if_false]
      omega

theorem pendingCount_step_lt (env : Env) (m : Dict) (ts : List Task)
    (h : (ts.filter (isReady m)).isEmpty = false) :
    pendingCount (stepTasks env m ts) < pendingCount ts := by
  induction ts with
  | nil => simp [List.filter_nil] at h
  | cons t ts ih =>
    unfold pendingCount stepTasks at ih ⊢
    by_cases hr : isReady m t = true
    · have hnp : ((execute_task env t).status == TaskStatus.pending) = false :=
        beq_eq_false_iff_ne.mpr (execute_task_not_pending env t)
      rcases isReady_pending hr with ⟨hp, _⟩
      have hps : (t.status == TaskStatus.pending) = true := beq_iff_eq.mpr hp
      simp only [List.map_cons, List.countP_cons, hr, hnp, hps,
        ite_cond_true, ite_cond_false, if_true, if_false]
      have := pendingCount_step_le env m ts
      unfold pendingCount stepTasks at this
      omega
    · have hr' : isReady m t = false := Bool.not_eq_true _ |>.mp hr
      simp only [List.filter_cons, hr', ite_cond_false, if_false] at h
      have := ih h
      simp only [List.map_cons, List.countP_cons, hr', ite_cond_false, if_false]
      omega

theorem countP_eq_length_all {ts : List Task} {p : Task → Bool}
    (h : ts.countP p = ts.length) : ∀ t ∈ ts, p t = true := by
  induction ts with
  | nil => intro t ht; cases ht
  | cons t ts ih =>
    intro u hu
    by_cases hp : p t = true
    · simp only [List.countP_cons, hp, if_true, List.length_cons] at h
      rcases List.mem_cons.mp hu with rfl | hu
      · exact hp
      · exact ih (by omega) u hu
    · exfalso
      have hp' : p t = false := Bool.not_eq_true _ |>.mp hp
      simp only [List.countP_cons, hp', Bool.false_eq_true, if_false, List.length_cons] at h
      have := List.countP_le_length p (l := ts)
      omega

/-! ### The coordinator's loop invariant -/

/-- Invariant tying a loop state (current task list `ts`, completed map `m`,
dispatch log `log`) back to the initial task list `ts0`:
* the list keeps its length and its tasks keep their ids;
* every map entry is a terminal task, and there are at most as many entries
  as terminal tasks;
* every task is either untouched or has been executed (terminal, and present
  in the map under its id);
* every logged dispatch was of an initially present task that was `pending`
  with every dependency in the completed map at dispatch time, and every map
  entry visible at dispatch time was terminal. -/
structure LoopInv (ts0 ts : List Task) (m : Dict) (log : List (Task × Dict)) : Prop where
  len_eq : ts.length = ts0.length
  id_eq : ∀ i : Nat, ts[i]?.map Task.id = ts0[i]?.map Task.id
  map_terminal : ∀ p ∈ m, terminalB p.2 = true
  map_card : m.length ≤ terminalCount ts
  frozen : ∀ (i : Nat) (t t0 : Task), ts[i]? = Option.some t → ts0[i]? = Option.some t0 →
    t = t0 ∨ (terminalB t = true ∧ dmem t.id m = true)
  log_ok : ∀ e ∈ log,
    (∃ t0 ∈ ts0, e.1 = t0) ∧ e.1.status = TaskStatus.pending ∧
    (∀ d ∈ e.1.dependencies, dmem d e.2 = true) ∧
    (∀ p ∈ e.2, terminalB p.2 = true)

theorem LoopInv.init (ts0 : List Task) : LoopInv ts0 ts0 [] [] := by
  refine ⟨rfl, fun i => rfl, ?_, ?_, ?_, ?_⟩
  · intro p hp
    cases hp
  · exact Nat.zero_le _
  · intro i t t0 h h0
    left
    rw [h] at h0
    exact Option.some.inj h0
  · intro e he
    cases he

theorem step_preserves_id (env : Env) (m : Dict) (t : Task) :
    (if isReady m t then execute_task env t else t).id = t.id := by
  by_cases hr : isReady m t = true
  · rw [if_pos hr, execute_task_id]
  · rw [if_neg hr]

theorem LoopInv.step {ts0 ts : List Task} {m : Dict} {log : List (Task × Dict)} (env : Env)
    (inv : LoopInv ts0 ts m log) :
    LoopInv ts0 (stepTasks env m ts)
      (dinsertAll m ((ts.filter (isReady m)).map (execute_task env)))
      (log ++ (ts.filter (isReady m)).map (fun t => (t, m))) := by
  constructor
  · rw [stepTasks_length]
    exact inv.len_eq
  · intro i
    rw [stepTasks_getElem?]
    have hid := inv.id_eq i
    cases h : ts[i]? with
    | none =>
      rw [h] at hid
      simpa using hid
    | some t =>
      rw [h] at hid
      simp only [Option.map_some'] at hid ⊢
      rw [step_preserves_id]
      exact hid
  · intro p hp
    rcases mem_dinsertAll hp with h | ⟨t, ht, rfl⟩
    · exact inv.map_terminal p h
    · rcases List.mem_map.mp ht with ⟨u, hu, rfl⟩
      exact execute_task_terminal env u
  · calc (dinsertAll m ((ts.filter (isReady m)).map (execute_task env))).length
        ≤ m.length + ((ts.filter (isReady m)).map (execute_task env)).length :=
          length_dinsertAll_le _ _
      _ = m.length + (ts.filter (isReady m)).length := by rw [List.length_map]
      _ ≤ terminalCount ts + ts.countP (isReady m) := by
          have h1 := inv.map_card
          have h2 : List.countP (isReady m) ts = (ts.filter (isReady m)).length :=
            List.countP_eq_length_filter _ _
          omega
      _ = terminalCount (stepTasks env m ts) := (terminalCount_step env m ts).symm
  · intro i t' t0 h' h0
    rw [stepTasks_getElem?] at h'
    cases h : ts[i]? with
    | none =>
      rw [h] at h'
      simp at h'
    | some t =>
      rw [h] at h'
      simp only [Option.map_some'] at h'
      have ht' : t' = if isReady m t then execute_task env t else t :=
        (Option.some.inj h').symm
      by_cases hr : isReady m t = true
      · rw [if_pos hr] at ht'
        subst ht'
        right
        refine ⟨execute_task_terminal env t, ?_⟩
        have htf : t ∈ ts.filter (isReady m) :=
          List.mem_filter.mpr ⟨List.getElem?_mem h, hr⟩
        have : execute_task env t ∈ (ts.filter (isReady m)).map (execute_task env) :=
          List.mem_map_of_mem _ htf
        exact dmem_dinsertAll_mem this
      · rw [if_neg hr] at ht'
        subst ht'
        rcases inv.frozen i t' t0 h h0 with h1 | ⟨h1, h2⟩
        · exact Or.inl h1
        · exact Or.inr ⟨h1, dmem_dinsertAll_of _ h2⟩
  · intro e he
    rcases List.mem_append.mp he with h | h
    · exact inv.log_ok e h
    · rcases List.mem_map.mp h with ⟨t, ht, rfl⟩
      rcases List.mem_filter.mp ht with ⟨hts, hr⟩
      rcases isReady_pending hr with ⟨hp, hdeps⟩
      refine ⟨?_, hp, hdeps, inv.map_terminal⟩
      rcases List.mem_iff_getElem?.mp hts with ⟨i, hi⟩
      have hlt : i < ts.length := (List.getElem?_eq_some.mp hi).1
      have hlt0 : i < ts0.length := by
        rw [← inv.len_eq]
        exact hlt
      have h0 : ts0[i]? = Option.some ts0[i] := List.getElem?_eq_getElem hlt0
      rcases inv.frozen i t ts0[i] hi h0 with h1 | ⟨h1, _⟩
      · exact ⟨ts0[i], List.getElem_mem hlt0, h1⟩
      · exact absurd hp (terminalB_not_pending h1)

/-- Everything `execPlanLoop` can return satisfies the invariant; moreover no
returned task is still pending with all dependencies in the completed map,
and a stalled halt can only happen with strictly fewer map entries than plan
tasks. -/
theorem execPlanLoop_post (env : Env) (ts0 : List Task) :
    ∀ (fuel : Nat) (ts : List Task) (m : Dict) (log : List (Task × Dict)) (r : ExecResult),
      LoopInv ts0 ts m log →
      execPlanLoop env fuel ts m log = Option.some r →
      LoopInv ts0 r.tasks r.completed r.log ∧
      (∀ t ∈ r.tasks, t.status = TaskStatus.pending →
          ∃ d ∈ t.dependencies, dmem d r.completed = false) ∧
      (r.reason = HaltReason.allDone ∨ r.completed.length < ts0.length) := by
  intro fuel
  induction fuel with
  | zero =>
    intro ts m log r _ h
    simp [execPlanLoop] at h
  | succ f ih =>
    intro ts m log r inv h
    simp only [execPlanLoop] at h
    by_cases hlen : m.length < ts.length
    · rw [if_pos hlen] at h
      by_cases hempty : (ts.filter (isReady m)).isEmpty = true
      · rw [if_pos hempty] at h
        have hr : r = ⟨ts, m, log, HaltReason.stalled⟩ := (Option.some.inj h).symm
        subst hr
        refine ⟨inv, ?_, Or.inr ?_⟩
        · intro t ht hp
          have hfil : ts.filter (isReady m) = [] := List.isEmpty_iff.mp hempty
          have hnr : ¬ (isReady m t = true) := by
            intro hcontra
            have hmem : t ∈ ts.filter (isReady m) := List.mem_filter.mpr ⟨ht, hcontra⟩
            rw [hfil] at hmem
            cases hmem
          unfold isReady at hnr
          rw [Bool.and_eq_true] at hnr
          push_neg at hnr
          have hdeps := hnr (beq_iff_eq.mpr hp)
          by_contra hcon
          push_neg at hcon
          apply hdeps
          rw [List.all_eq_true]
          intro d hd
          cases hdm : dmem d m with
          | true => rfl
          | false => exact absurd hdm (hcon d hd)
        · rw [← inv.len_eq]
          exact hlen
      · rw [if_neg hempty] at h
        exact ih _ _ _ r (inv.step env) h
    · rw [if_neg hlen] at h
      have hr : r = ⟨ts, m, log, HaltReason.allDone⟩ := (Option.some.inj h).symm
      subst hr
      refine ⟨inv, ?_, Or.inl rfl⟩
      intro t ht hp
      exfalso
      have hle : terminalCount ts ≤ ts.length := List.countP_le_length _
      have hge : ts.length ≤ m.length := Nat.le_of_not_lt hlen
      have hcard := inv.map_card
      have heq : terminalCount ts = ts.length := by omega
      have hterm := countP_eq_length_all heq t ht
      exact terminalB_not_pending hterm hp

/-- With more fuel than pending tasks the loop always returns. -/
theorem execPlanLoop_total (env : Env) :
    ∀ (fuel : Nat) (ts : List Task) (m : Dict) (log : List (Task × Dict)),
      pendingCount ts < fuel →
      ∃ r, execPlanLoop env fuel ts m log = Option.some r := by
  intro fuel
  induction fuel with
  | zero =>
    intro ts m log h
    omega
  | succ f ih =>
    intro ts m log h
    by_cases hlen : m.length < ts.length
    · by_cases hempty : (ts.filter (isReady m)).isEmpty = true
      · refine ⟨⟨ts, m, log, HaltReason.stalled⟩, ?_⟩
        simp only [execPlanLoop]
        rw [if_pos hlen, if_pos hempty]
      · have hempty' : (ts.filter (isReady m)).isEmpty = false :=
          Bool.not_eq_true _ |>.mp hempty
        have hlt := pendingCount_step_lt env m ts hempty'
        obtain ⟨r, hr⟩ := ih (stepTasks env m ts)
          (dinsertAll m ((ts.filter (isReady m)).map (execute_task env)))
          (log ++ (ts.filter (isReady m)).map (fun t => (t, m))) (by omega)
        refine ⟨r, ?_⟩
        simp only [execPlanLoop]
        rw [if_pos hlen, if_neg hempty]
        exact hr
    · refine ⟨⟨ts, m, log, HaltReason.allDone⟩, ?_⟩
      simp only [execPlanLoop]
      rw [if_neg hlen]

/-! ### Bridges between executable checks and their specification forms -/

theorem terminalB_eq (t : Task) :
    terminalB t = true ↔
      t.status = TaskStatus.completed ∨ t.status = TaskStatus.failed := by
  unfold terminalB
  rw [Bool.or_eq_true]
  simp only [beq_iff_eq]

theorem containsSeq_iff (n : List Char) : ∀ h : List Char,
    containsSeq n h = true ↔ n <:+: h := by
  intro h
  induction h with
  | nil =>
    simp only [containsSeq, List.isEmpty_iff, List.infix_nil]
  | cons c rest ih =>
    simp only [containsSeq, Bool.or_eq_true, ih, List.infix_cons_iff,
      List.isPrefixOf_iff_prefix]

theorem anyKw_iff (kws : List String) (s : String) :
    (kws.any fun w => pyIn w s) = true ↔ ∃ w ∈ kws, w.data <:+: s.data := by
  rw [List.any_eq_true]
  constructor
  · rintro ⟨w, hw, hin⟩
    exact ⟨w, hw, (containsSeq_iff _ _).mp hin⟩
  · rintro ⟨w, hw, hin⟩
    exact ⟨w, hw, (containsSeq_iff _ _).mpr hin⟩

/-! ### Closed forms of the decomposition pipeline -/

theorem decompose_tasks_eq {goal kw : String} {rest : List String} (a : Analysis)
    (h : pyWords goal = kw :: rest) :
    decompose_tasks goal a = Option.some (decomposeList goal kw a) := by
  unfold decompose_tasks
  rw [h]

theorem decomposeList_length (goal kw : String) (a : Analysis) :
    (decomposeList goal kw a).length = 17 := rfl

theorem route_tools_decomposeList (goal kw : String) (a : Analysis) :
    route_tools (decomposeList goal kw a) = Option.some routeTable := rfl

theorem plan_cost_decomposeList (goal kw : String) (a : Analysis) :
    plan_cost (decomposeList goal kw a) = Option.some (142/25) := by
  have h1 : TaskType.script_generation ≠ TaskType.thumbnail_generation := by decide
  have h2 : TaskType.tts_generation ≠ TaskType.thumbnail_generation := by decide
  have h3 : TaskType.seo_optimization ≠ TaskType.thumbnail_generation := by decide
  simp only [plan_cost, decomposeList, tools, List.range, List.range.loop,
    List.range', List.map, List.append_eq, List.cons_append, List.nil_append,
    Option.bind_eq_bind, Option.some_bind, if_neg h1, if_neg h2, if_neg h3]
  norm_num

theorem create_execution_plan_eq (goal : String) (ctx : Context) {kw : String}
    {rest : List String} (h : pyWords goal = kw :: rest) :
    create_execution_plan goal ctx = Option.some
      { project_id := ctx.project_id
        goal := goal
        tasks := decomposeList goal kw
          { analyze_goal goal ctx with project_id := ctx.project_id, niche := ctx.niche }
        estimated_cost := 142/25
        estimated_duration_minutes := 28
        tool_mapping := routeTable } := by
  simp only [create_execution_plan, decompose_tasks_eq _ h, route_tools_decomposeList,
    plan_cost_decomposeList, decomposeList_length, Option.bind_eq_bind, Option.some_bind]
/-! ### Claim theorems -/

/-- Claim C1, evaluated at the failing input: for a goal containing `series`
the Goal Analyzer's scope is 10, yet `create_execution_plan` still produces
17 tasks, not `1 + 4 * 10 = 41` — `decompose_tasks` never reads the computed
scope, its loops being hard-coded to four deliverables. -/
theorem c1_scope_never_used :
    determine_scope goalSeries = 10 ∧
    (create_execution_plan goalSeries ctxDemo).map (fun p => p.tasks.length) =
      Option.some 17 ∧
    1 + 4 * 10 ≠ 17 :=
  ⟨by decide, by decide, by decide⟩

/-- Claim C2: failure satisfies dependencies.  In any run, if the `i`-th task
started `pending` and ended `failed`, then a `pending` task whose only
dependency is that task's id also leaves `pending` for a terminal status by
the end of the run. -/
theorem c2_failed_dependency_unblocks (env : Env) (plan : ExecutionPlan)
    (r : ExecResult) (i j : Nat) (a0 b0 a1 : Task)
    (hrun : execute_plan env plan = Option.some r)
    (hi : plan.tasks[i]? = Option.some a0)
    (hj : plan.tasks[j]? = Option.some b0)
    (ha0 : a0.status = TaskStatus.pending)
    (hb0 : b0.status = TaskStatus.pending)
    (hdep : b0.dependencies = [a0.id])
    (hi' : r.tasks[i]? = Option.some a1)
    (ha1 : a1.status = TaskStatus.failed) :
    ∃ b1, r.tasks[j]? = Option.some b1 ∧
      (b1.status = TaskStatus.completed ∨ b1.status = TaskStatus.failed) := by
  obtain ⟨inv, hnoready, -⟩ :=
    execPlanLoop_post env plan.tasks (pendingCount plan.tasks + 1) plan.tasks [] [] r
      (LoopInv.init _) hrun
  have hdma : dmem a0.id r.completed = true := by
    rcases inv.frozen i a1 a0 hi' hi with h1 | ⟨-, h2⟩
    · rw [h1, ha0] at ha1
      exact absurd ha1 (by decide)
    · have hid := inv.id_eq i
      rw [hi', hi] at hid
      simp only [Option.map_some'] at hid
      rw [← Option.some.inj hid]
      exact h2
  have hjlt : j < r.tasks.length := by
    have hlt : j < plan.tasks.length := (List.getElem?_eq_some.mp hj).1
    rw [inv.len_eq]
    exact hlt
  have hj' : r.tasks[j]? = Option.some r.tasks[j] := List.getElem?_eq_getElem hjlt
  refine ⟨r.tasks[j], hj', ?_⟩
  have hfb := inv.frozen j r.tasks[j] b0 hj' hj
  by_cases hbp : r.tasks[j].status = TaskStatus.pending
  · exfalso
    obtain ⟨d, hd, hdm⟩ := hnoready _ (List.getElem_mem hjlt) hbp
    rcases hfb with h1 | ⟨h1, -⟩
    · rw [h1, hdep] at hd
      have hda : d = a0.id := List.mem_singleton.mp hd
      rw [hda, hdma] at hdm
      exact absurd hdm (by decide)
    · exact absurd hbp (terminalB_not_pending h1)
  · rcases hfb with h1 | ⟨h1, -⟩
    · rw [h1] at hbp
      exact absurd hb0 hbp
    · exact (terminalB_eq _).mp h1

/-- Witness for C2: a two-task chain under an always-failing environment; the
downstream task still reaches a terminal status. -/
theorem c2_witness :
    ∃ b1, rFailPair.tasks[1]? = Option.some b1 ∧
      (b1.status = TaskStatus.completed ∨ b1.status = TaskStatus.failed) :=
  c2_failed_dependency_unblocks envAllFail
    (planOf [simpleTask 0 [], simpleTask 1 [0]]) rFailPair 0 1
    (simpleTask 0 []) (simpleTask 1 [0]) a1Fail
    (by decide) (by decide) (by decide) (by decide) (by decide) (by decide)
    (by decide) (by decide)

/-- Claim C3: `execute_plan` terminates on every plan and every capability
behaviour; every entry of the returned completed map is terminal, and when
the run halted through the stalled-graph branch the returned list is shorter
than the plan's task list. -/
theorem c3_execute_plan_always_halts (env : Env) (plan : ExecutionPlan) :
    ∃ r, execute_plan env plan = Option.some r ∧
      (∀ p ∈ r.completed,
        p.2.status = TaskStatus.completed ∨ p.2.status = TaskStatus.failed) ∧
      (r.reason = HaltReason.allDone ∨
        (returnedTasks r).length < plan.tasks.length) := by
  obtain ⟨r, hr⟩ := execPlanLoop_total env (pendingCount plan.tasks + 1) plan.tasks [] []
    (Nat.lt_succ_self _)
  obtain ⟨inv, -, hreason⟩ :=
    execPlanLoop_post env plan.tasks (pendingCount plan.tasks + 1) plan.tasks [] [] r
      (LoopInv.init _) hr
  refine ⟨r, hr, ?_, ?_⟩
  · intro p hp
    exact (terminalB_eq _).mp (inv.map_terminal p hp)
  · rcases hreason with h | h
    · exact Or.inl h
    · right
      unfold returnedTasks
      rw [List.length_map]
      exact h

/-- Witness for C3: the halting theorem applied to a plan with a dangling
dependency id (99 names no task). -/
theorem c3_witness :
    ∃ r, execute_plan envAllOk (planOf [simpleTask 0 [], simpleTask 1 [99]]) =
        Option.some r ∧
      (∀ p ∈ r.completed,
        p.2.status = TaskStatus.completed ∨ p.2.status = TaskStatus.failed) ∧
      (r.reason = HaltReason.allDone ∨
        (returnedTasks r).length <
          (planOf [simpleTask 0 [], simpleTask 1 [99]]).tasks.length) :=
  c3_execute_plan_always_halts envAllOk (planOf [simpleTask 0 [], simpleTask 1 [99]])

/-- Claim C4: `execute_task` outcome dichotomy for a task whose type has a
tool.  A raised exception gives `failed` with `{'error': message}` as the
whole output, `cost_usd` untouched, the tool name not recorded, and the
wall-clock bracket recorded; success records output, tool name, cost and the
same bracket.  (`execute_task` is total — no exception reaches its caller.) -/
theorem c4_execute_task_outcomes (env : Env) (task : Task) (tool : ToolSpec)
    (htool : tools task.task_type = Option.some tool) :
    (∀ msg, env.run task.task_type task.input_data = Except.error msg →
      execute_task env task = { task with
        status := TaskStatus.failed
        output_data := Option.some [("error", PyVal.str msg)]
        completed_at := Option.some (env.time task.task_type task.input_data).2
        execution_time_seconds :=
          (env.time task.task_type task.input_data).2 -
            (env.time task.task_type task.input_data).1 }) ∧
    (∀ out cost, env.run task.task_type task.input_data = Except.ok (out, cost) →
      execute_task env task = { task with
        status := TaskStatus.completed
        output_data := Option.some out
        tool_used := Option.some tool.name
        cost_usd := cost
        completed_at := Option.some (env.time task.task_type task.input_data).2
        execution_time_seconds :=
          (env.time task.task_type task.input_data).2 -
            (env.time task.task_type task.input_data).1 }) := by
  constructor
  · intro msg hmsg
    simp only [execute_task, htool, hmsg]
  · intro out cost hok
    simp only [execute_task, htool, hok]

/-- Witness for C4: a failing research call. -/
theorem c4_witness :
    execute_task envAllFail (simpleTask 0 []) = { simpleTask 0 [] with
      status := TaskStatus.failed
      output_data := Option.some [("error", PyVal.str "boom")]
      completed_at := Option.some 2
      execution_time_seconds := 2 } :=
  (c4_execute_task_outcomes envAllFail (simpleTask 0 []) ⟨"research_tool", 0⟩ rfl).1
    "boom" rfl

/-- Claim C5: every dispatch recorded in a run's log was of a `pending` task
whose every dependency id was a key of the completed map at dispatch time,
and every entry of that map was terminal. -/
theorem c5_dispatch_only_when_ready (env : Env) (plan : ExecutionPlan)
    (r : ExecResult) (hrun : execute_plan env plan = Option.some r) :
    ∀ e ∈ r.log,
      e.1.status = TaskStatus.pending ∧
      (∀ d ∈ e.1.dependencies, dmem d e.2 = true) ∧
      (∀ p ∈ e.2,
        p.2.status = TaskStatus.completed ∨ p.2.status = TaskStatus.failed) := by
  obtain ⟨inv, -, -⟩ :=
    execPlanLoop_post env plan.tasks (pendingCount plan.tasks + 1) plan.tasks [] [] r
      (LoopInv.init _) hrun
  intro e he
  obtain ⟨-, hp, hdeps, hterm⟩ := inv.log_ok e he
  exact ⟨hp, hdeps, fun p hp' => (terminalB_eq _).mp (hterm p hp')⟩

/-- Witness for C5: the single dispatch of a one-task plan. -/
theorem c5_witness :
    (simpleTask 0 []).status = TaskStatus.pending ∧
    (∀ d ∈ (simpleTask 0 []).dependencies, dmem d ([] : Dict) = true) ∧
    (∀ p ∈ ([] : Dict),
      p.2.status = TaskStatus.completed ∨ p.2.status = TaskStatus.failed) :=
  c5_dispatch_only_when_ready envAllOk (planOf [simpleTask 0 []]) rOkSingle
    (by decide) (simpleTask 0 [], ([] : Dict)) (by decide)

/-- Claim C6: every dispatch of a run is of a task that was `pending` in the
plan at the start of the run, so already-terminal tasks are never
re-dispatched; on a fully terminal plan the run dispatches nothing at all. -/
theorem c6_no_redispatch (env : Env) (plan : ExecutionPlan) (r : ExecResult)
    (hrun : execute_plan env plan = Option.some r) :
    (∀ e ∈ r.log, ∃ t0 ∈ plan.tasks, e.1 = t0 ∧ t0.status = TaskStatus.pending) ∧
    ((∀ t ∈ plan.tasks,
        t.status = TaskStatus.completed ∨ t.status = TaskStatus.failed) →
      r.log = []) := by
  obtain ⟨inv, -, -⟩ :=
    execPlanLoop_post env plan.tasks (pendingCount plan.tasks + 1) plan.tasks [] [] r
      (LoopInv.init _) hrun
  constructor
  · intro e he
    obtain ⟨⟨t0, ht0, heq⟩, hp, -, -⟩ := inv.log_ok e he
    exact ⟨t0, ht0, heq, heq ▸ hp⟩
  · intro hall
    rw [List.eq_nil_iff_forall_not_mem]
    intro e he
    obtain ⟨⟨t0, ht0, heq⟩, hp, -, -⟩ := inv.log_ok e he
    rw [heq] at hp
    rcases hall t0 ht0 with h | h
    · rw [h] at hp
      exact absurd hp (by decide)
    · rw [h] at hp
      exact absurd hp (by decide)

/-- Witness for C6: re-running a plan whose only task is already completed
invokes nothing. -/
theorem c6_witness : rDone.log = [] :=
  (c6_no_redispatch envAllOk (planOf [doneTask]) rDone (by decide)).2 (by decide)

/-- Claim C7: for any goal with the default scope 4 (and at least one word),
`create_execution_plan` yields 17 tasks and an estimated cost of
`0 + 4*(1/2) + 4*(1/10) + 4*((6/25)*3) + 4*(1/10) = 142/25 = 5.68`. -/
theorem c7_default_plan_cost (goal : String) (ctx : Context)
    (_hscope : determine_scope goal = 4) (hwords : pyWords goal ≠ []) :
    ∃ plan, create_execution_plan goal ctx = Option.some plan ∧
      plan.tasks.length = 17 ∧ plan.estimated_cost = 142/25 := by
  cases hw : pyWords goal with
  | nil => exact absurd hw hwords
  | cons kw rest =>
    exact ⟨_, create_execution_plan_eq goal ctx hw, decomposeList_length _ _ _, rfl⟩

/-- Witness for C7: the demo goal `"Grow my tech channel"`. -/
theorem c7_witness :
    ∃ plan, create_execution_plan goalDefault ctxDemo = Option.some plan ∧
      plan.tasks.length = 17 ∧ plan.estimated_cost = 142/25 :=
  c7_default_plan_cost goalDefault ctxDemo (by decide) (by decide)

/-- Claim C8: `_classify_objective` realises exactly the first-match,
case-insensitive substring rule of the specification — monetization on
`earn`/`money`/`revenue`, else branding on `brand`/`growth`, else education
on `teach`/`learn`/`education`, else entertainment; it is a pure function of
the goal text. -/
theorem c8_classify_rule (g : String) :
    (classify_objective g = "monetization" ↔
      ∃ w ∈ (["earn", "money", "revenue"] : List String),
        w.data <:+: (pyLower g).data) ∧
    (classify_objective g = "branding" ↔
      (¬ ∃ w ∈ (["earn", "money", "revenue"] : List String),
        w.data <:+: (pyLower g).data) ∧
      ∃ w ∈ (["brand", "growth"] : List String), w.data <:+: (pyLower g).data) ∧
    (classify_objective g = "education" ↔
      (¬ ∃ w ∈ (["earn", "money", "revenue"] : List String),
        w.data <:+: (pyLower g).data) ∧
      (¬ ∃ w ∈ (["brand", "growth"] : List String),
        w.data <:+: (pyLower g).data) ∧
      ∃ w ∈ (["teach", "learn", "education"] : List String),
        w.data <:+: (pyLower g).data) ∧
    (classify_objective g = "entertainment" ↔
      (¬ ∃ w ∈ (["earn", "money", "revenue"] : List String),
        w.data <:+: (pyLower g).data) ∧
      (¬ ∃ w ∈ (["brand", "growth"] : List String),
        w.data <:+: (pyLower g).data) ∧
      ¬ ∃ w ∈ (["teach", "learn", "education"] : List String),
        w.data <:+: (pyLower g).data) := by
  have bm := anyKw_iff ["earn", "money", "revenue"] (pyLower g)
  have bb := anyKw_iff ["brand", "growth"] (pyLower g)
  have be := anyKw_iff ["teach", "learn", "education"] (pyLower g)
  unfold classify_objective
  by_cases h1 :
      ((["earn", "money", "revenue"] : List String).any fun w => pyIn w (pyLower g)) = true
  · rw [if_pos h1]
    have hM := bm.mp h1
    exact ⟨iff_of_true rfl hM,
      iff_of_false (by decide) (fun hc => hc.1 hM),
      iff_of_false (by decide) (fun hc => hc.1 hM),
      iff_of_false (by decide) (fun hc => hc.1 hM)⟩
  · rw [if_neg h1]
    have hnM : ¬ ∃ w ∈ (["earn", "money", "revenue"] : List String),
        w.data <:+: (pyLower g).data :=
      fun hc => h1 (bm.mpr hc)
    by_cases h2 :
        ((["brand", "growth"] : List String).any fun w => pyIn w (pyLower g)) = true
    · rw [if_pos h2]
      have hB := bb.mp h2
      exact ⟨iff_of_false (by decide) hnM,
        iff_of_true rfl ⟨hnM, hB⟩,
        iff_of_false (by decide) (fun hc => hc.2.1 hB),
        iff_of_false (by decide) (fun hc => hc.2.1 hB)⟩
    · rw [if_neg h2]
      have hnB : ¬ ∃ w ∈ (["brand", "growth"] : List String),
          w.data <:+: (pyLower g).data :=
        fun hc => h2 (bb.mpr hc)
      by_cases h3 :
          ((["teach", "learn", "education"] : List String).any
            fun w => pyIn w (pyLower g)) = true
      · rw [if_pos h3]
        have hE := be.mp h3
        exact ⟨iff_of_false (by decide) hnM,
          iff_of_false (by decide) (fun hc => hnB hc.2),
          iff_of_true rfl ⟨hnM, hnB, hE⟩,
          iff_of_false (by decide) (fun hc => hc.2.2 hE)⟩
      · rw [if_neg h3]
        have hnE : ¬ ∃ w ∈ (["teach", "learn", "education"] : List String),
            w.data <:+: (pyLower g).data :=
          fun hc => h3 (be.mpr hc)
        exact ⟨iff_of_false (by decide) hnM,
          iff_of_false (by decide) (fun hc => hnB hc.2),
          iff_of_false (by decide) (fun hc => hnE hc.2.2),
          iff_of_true rfl ⟨hnM, hnB, hnE⟩⟩

/-- Witness for C8: a goal containing `earn` classifies as monetization. -/
theorem c8_witness : classify_objective "Time to earn revenue" = "monetization" :=
  (c8_classify_rule "Time to earn revenue").1.mpr ⟨"earn", by decide, by decide⟩

/-- Claim C9: in every sequence produced by `decompose_tasks`, every
dependency id names a task of the same sequence and never the depending
task's own id. -/
theorem c9_dependency_closure (goal : String) (a : Analysis) (ts : List Task)
    (h : decompose_tasks goal a = Option.some ts) : depClosure ts = true := by
  cases hw : pyWords goal with
  | nil =>
    unfold decompose_tasks at h
    rw [hw] at h
    exact Option.noConfusion h
  | cons kw rest =>
    rw [decompose_tasks_eq a hw] at h
    have hts : ts = decomposeList goal kw a := (Option.some.inj h).symm
    subst hts
    rfl

/-- Witness for C9: the decomposition of the demo goal. -/
theorem c9_witness : depClosure demoTasks = true :=
  c9_dependency_closure goalDefault analysisDemo demoTasks (by decide)

/-- Claim C10: decomposition (and hence plan creation) fails exactly on
wordless goals — `goal.split()[0]` raises `IndexError` — and succeeds on any
goal with at least one word. -/
theorem c10_decompose_needs_word (goal : String) (a : Analysis) (ctx : Context) :
    (decompose_tasks goal a = Option.none ↔ pyWords goal = []) ∧
    ((create_execution_plan goal ctx).isSome = true ↔ pyWords goal ≠ []) := by
  cases hw : pyWords goal with
  | nil =>
    constructor
    · constructor
      · intro _
        rfl
      · intro _
        unfold decompose_tasks
        rw [hw]
    · constructor
      · intro hsome
        exfalso
        have hd : ∀ a' : Analysis, decompose_tasks goal a' = Option.none := by
          intro a'
          unfold decompose_tasks
          rw [hw]
        simp only [create_execution_plan, hd, Option.bind_eq_bind,
          Option.none_bind, Option.isSome_none] at hsome
        exact absurd hsome (by decide)
      · intro hne
        exact absurd rfl hne
  | cons kw rest =>
    constructor
    · constructor
      · intro h
        rw [decompose_tasks_eq a hw] at h
        exact Option.noConfusion h
      · intro h
        exact absurd h (by simp)
    · constructor
      · intro _
        exact List.cons_ne_nil kw rest
      · intro _
        rw [create_execution_plan_eq goal ctx hw]
        rfl

/-- Witness for C10: the empty goal fails, the demo goal succeeds. -/
theorem c10_witness :
    decompose_tasks "" analysisDemo = Option.none ∧
    (create_execution_plan goalDefault ctxDemo).isSome = true :=
  ⟨(c10_decompose_needs_word "" analysisDemo ctxDemo).1.mpr (by decide),
   (c10_decompose_needs_word goalDefault analysisDemo ctxDemo).2.mpr (by decide)⟩
end PlanningEngine
